import Mathlib

/-
A shallow embedding of `src/main.py`, a small library-management program
(books, members, borrow/return transactions, flat-file persistence and a
log-derived "most borrowed book" report), together with proofs about its
transaction and reporting logic.

Strings are modelled as `List Char` so that the character-level parsing done
by the program (CSV splitting, `str.find`, slicing, `str.strip`) can be
embedded directly.  Python `int` is modelled as `Int`.  Console output is
abstracted away except where a claim is about a printed message; file writes
are modelled as fields of the `Library` state holding the exact text written.
-/

set_option autoImplicit false

namespace LibSys

/-- Python strings, modelled as lists of characters. -/
abbrev Str := List Char

/-- The single-quote character `'` used by the transaction-log format. -/
def quoteChar : Char := Char.ofNat 39

/-- Python `str.lower()` (modelled for ASCII, via `Char.toLower`). -/
def lowerStr (s : Str) : Str := s.map Char.toLower

/-- First element of a list satisfying `p` (the linear scans of
`find_book_by_title` / `find_member_by_id`). -/
def findFirst {α : Type} (p : α → Bool) : List α → Option α
  | [] => none
  | a :: t => if p a then some a else findFirst p t

/-- Replace the first element satisfying `p` by its image under `f`,
leaving everything else unchanged.  This is the pure rendering of Python's
"find the object, then mutate it in place". -/
def updateFirst {α : Type} (p : α → Bool) (f : α → α) : List α → List α
  | [] => []
  | a :: t => if p a then f a :: t else a :: updateFirst p f t

/-- `class Book` of `src/main.py`. -/
structure Book where
  book_id : Str
  title : Str
  author : Str
  available_copies : Int
  deriving DecidableEq

/-- `Book.update_copies`: `self.available_copies += number`. -/
def Book.update_copies (b : Book) (number : Int) : Book :=
  { b with available_copies := b.available_copies + number }

/-- `class Member` of `src/main.py`. -/
structure Member where
  member_id : Str
  name : Str
  borrowed_books : List Str
  deriving DecidableEq

/-- `Member.borrow_book`: append the title if it is not already present. -/
def Member.borrow_book (m : Member) (t : Str) : Member :=
  if m.borrowed_books.contains t then m
  else { m with borrowed_books := m.borrowed_books ++ [t] }

/-- `Member.return_book`: remove the first occurrence of the title if
present (Python `list.remove`). -/
def Member.return_book (m : Member) (t : Str) : Member :=
  if m.borrowed_books.contains t then
    { m with borrowed_books := m.borrowed_books.erase t }
  else m

/-- Decimal digits of `n`, most significant first, with explicit fuel so the
definition is structurally recursive (the fuel is always sufficient, see
`natStr_spec`). -/
def natStrAux (fuel n : Nat) : Str :=
  match fuel with
  | 0 => []
  | fuel + 1 =>
    if n < 10 then [Char.ofNat (48 + n)]
    else natStrAux fuel (n / 10) ++ [Char.ofNat (48 + n % 10)]

/-- Python `str(n)` for a non-negative integer. -/
def natStr (n : Nat) : Str := natStrAux (n + 1) n

/-- Python `str(n)` for an arbitrary integer. -/
def intStr (n : Int) : Str :=
  match n with
  | Int.ofNat m => natStr m
  | Int.negSucc m => Char.ofNat 45 :: natStr (m + 1)

/-- One line of `books.txt`: `f"{book_id},{title},{author},{available_copies}"`. -/
def serializeBook (b : Book) : Str :=
  b.book_id ++ (Char.ofNat 44 :: (b.title ++ (Char.ofNat 44 ::
    (b.author ++ (Char.ofNat 44 :: intStr b.available_copies)))))

/-- `Library._save_books`: the full text written to `books.txt`
(one line per book, each terminated by a newline). -/
def save_books (books : List Book) : Str :=
  match books with
  | [] => []
  | b :: bs => serializeBook b ++ Char.ofNat 10 :: save_books bs

/-- Python `";".join(titles)`. -/
def joinSemi : List Str → Str
  | [] => []
  | [x] => x
  | x :: y :: r => x ++ Char.ofNat 59 :: joinSemi (y :: r)

/-- One line of `members.txt`: `f"{member_id},{name},{borrowed_books_str}"`. -/
def serializeMember (m : Member) : Str :=
  m.member_id ++ (Char.ofNat 44 :: (m.name ++ (Char.ofNat 44 ::
    joinSemi m.borrowed_books)))

/-- `Library._save_members`: the full text written to `members.txt`. -/
def save_members (members : List Member) : Str :=
  match members with
  | [] => []
  | m :: ms => serializeMember m ++ Char.ofNat 10 :: save_members ms

/-- The in-memory and on-disk state managed by `class Library`.  The
`borrow_count` dictionary of the source is omitted: it is written but never
read (the report re-scans the log), as the specification itself notes. -/
structure Library where
  books : List Book
  members : List Member
  booksFile : Str
  membersFile : Str
  log : List Str
  deriving DecidableEq

/-- A fresh library with no data files present. -/
def emptyLib : Library :=
  { books := [], members := [], booksFile := [], membersFile := [], log := [] }


/-- A concrete two-book, two-member state used by witnesses. -/
def libW1 : Library :=
  { books := [⟨"B0".data, "Hobbit".data, "T".data, 1⟩, ⟨"B1".data, "Dune".data, "H".data, 2⟩],
    members := [⟨"M1".data, "Ann".data, []⟩, ⟨"M2".data, "Bob".data, []⟩],
    booksFile := [], membersFile := [], log := [] }

/-- Like `libW1` but with `"Dune"` held by member `"M2"`, so a return
succeeds. -/
def libW2 : Library :=
  { books := [⟨"B0".data, "Hobbit".data, "T".data, 1⟩, ⟨"B1".data, "Dune".data, "H".data, 1⟩],
    members := [⟨"M1".data, "Ann".data, []⟩, ⟨"M2".data, "Bob".data, ["Dune".data]⟩],
    booksFile := [], membersFile := [], log := [] }

/-- The case-insensitive title test of `find_book_by_title`. -/
def bookMatches (title : Str) (b : Book) : Bool :=
  lowerStr b.title == lowerStr title

/-- The case-insensitive id test of `find_member_by_id`. -/
def memberMatches (mid : Str) (m : Member) : Bool :=
  lowerStr m.member_id == lowerStr mid

/-- `Library.find_book_by_title`: first book whose title matches
case-insensitively, else `None`. -/
def find_book_by_title (books : List Book) (title : Str) : Option Book :=
  findFirst (bookMatches title) books

/-- `Library.find_member_by_id`: first member whose id matches
case-insensitively, else `None`. -/
def find_member_by_id (members : List Member) (mid : Str) : Option Member :=
  findFirst (memberMatches mid) members

/-- `Library.add_book`.  Returns the new state and `true` when the book was
added ("Book added successfully!"), `false` on the duplicate-title error
("Error: Book with title ... already exists."). -/
def add_book (lib : Library) (book_id title author : Str) (copies : Int) :
    Library × Bool :=
  match find_book_by_title lib.books title with
  | some _ => (lib, false)
  | none =>
    let books' := lib.books ++ [⟨book_id, title, author, copies⟩]
    ({ lib with books := books', booksFile := save_books books' }, true)

/-- `Library.add_member`.  Returns the new state and `true` when the member
was added, `false` on the duplicate-id error. -/
def add_member (lib : Library) (member_id name : Str) : Library × Bool :=
  match find_member_by_id lib.members member_id with
  | some _ => (lib, false)
  | none =>
    let members' := lib.members ++ [⟨member_id, name, []⟩]
    ({ lib with members := members', membersFile := save_members members' }, true)

/-- Outcome of a borrow/return transaction, one constructor per `print`
branch of the source. -/
inductive TxResult where
  | ok
  | memberNotFound
  | bookNotFound
  | noCopies
  | alreadyBorrowed
  | notBorrowed
  deriving DecidableEq

/-- `[<timestamp>] <message>`, as written by `Library._log_transaction`. -/
def logLine (ts msg : Str) : Str :=
  Char.ofNat 91 :: ts ++ Char.ofNat 93 :: Char.ofNat 32 :: msg

/-- The message logged by a successful borrow:
`Borrowed: '<title>' by <name> (ID: <member_id>)`. -/
def borrowMsg (title name mid : Str) : Str :=
  "Borrowed: ".data ++ quoteChar :: title ++ quoteChar :: " by ".data ++
    name ++ " (ID: ".data ++ mid ++ [Char.ofNat 41]

/-- The message logged by a successful return. -/
def returnMsg (title name mid : Str) : Str :=
  "Returned: ".data ++ quoteChar :: title ++ quoteChar :: " by ".data ++
    name ++ " (ID: ".data ++ mid ++ [Char.ofNat 41]

/-- `Library.borrow_transaction`.  `ts` is the timestamp string the source
obtains from `datetime.datetime.now()`. -/
def borrow_transaction (lib : Library) (ts member_id book_title : Str) :
    Library × TxResult :=
  match find_member_by_id lib.members member_id with
  | none => (lib, TxResult.memberNotFound)
  | some m =>
    match find_book_by_title lib.books book_title with
    | none => (lib, TxResult.bookNotFound)
    | some b =>
      if b.available_copies ≤ 0 then (lib, TxResult.noCopies)
      else if m.borrowed_books.contains b.title then (lib, TxResult.alreadyBorrowed)
      else
        let books' := updateFirst (bookMatches book_title)
          (fun bb => bb.update_copies (-1)) lib.books
        let members' := updateFirst (memberMatches member_id)
          (fun mm => mm.borrow_book b.title) lib.members
        ({ books := books', members := members',
           booksFile := save_books books', membersFile := save_members members',
           log := lib.log ++ [logLine ts (borrowMsg b.title m.name m.member_id)] },
         TxResult.ok)

/-- `Library.return_transaction`. -/
def return_transaction (lib : Library) (ts member_id book_title : Str) :
    Library × TxResult :=
  match find_member_by_id lib.members member_id with
  | none => (lib, TxResult.memberNotFound)
  | some m =>
    match find_book_by_title lib.books book_title with
    | none => (lib, TxResult.bookNotFound)
    | some b =>
      if ¬ m.borrowed_books.contains b.title then (lib, TxResult.notBorrowed)
      else
        let books' := updateFirst (bookMatches book_title)
          (fun bb => bb.update_copies 1) lib.books
        let members' := updateFirst (memberMatches member_id)
          (fun mm => mm.return_book b.title) lib.members
        ({ books := books', members := members',
           booksFile := save_books books', membersFile := save_members members',
           log := lib.log ++ [logLine ts (returnMsg b.title m.name m.member_id)] },
         TxResult.ok)

/-- Library states reachable from a fresh start through the four mutating
operations. -/
inductive Reachable : Library → Prop where
  | empty : Reachable emptyLib
  | add_book (lib : Library) (i t a : Str) (c : Int) :
      Reachable lib → Reachable (add_book lib i t a c).1
  | add_member (lib : Library) (i n : Str) :
      Reachable lib → Reachable (add_member lib i n).1
  | borrow (lib : Library) (ts mid t : Str) :
      Reachable lib → Reachable (borrow_transaction lib ts mid t).1
  | ret (lib : Library) (ts mid t : Str) :
      Reachable lib → Reachable (return_transaction lib ts mid t).1

/-- Python whitespace test used by `str.strip()` (modelled for the ASCII
whitespace characters: space, tab, newline, carriage return, vertical tab,
form feed). -/
def pyIsSpace (c : Char) : Bool :=
  c == Char.ofNat 32 || c == Char.ofNat 9 || c == Char.ofNat 10 ||
    c == Char.ofNat 13 || c == Char.ofNat 11 || c == Char.ofNat 12

/-- Python `str.strip()`: drop leading and trailing whitespace. -/
def pyStrip (l : Str) : Str :=
  ((l.dropWhile pyIsSpace).reverse.dropWhile pyIsSpace).reverse

/-- Python `s.split(c)` for a single-character separator. -/
def splitOnChar (c : Char) : Str → List Str
  | [] => [[]]
  | a :: t =>
    if a == c then [] :: splitOnChar c t
    else
      match splitOnChar c t with
      | [] => [[a]]
      | h :: r => (a :: h) :: r

/-- Python's universal-newline translation for a text-mode file: `\r\n` and
lone `\r` both become `\n`. -/
def normNewlines : Str → Str
  | [] => []
  | [c] => if c = Char.ofNat 13 then [Char.ofNat 10] else [c]
  | c :: d :: t =>
    if c = Char.ofNat 13 then
      if d = Char.ofNat 10 then Char.ofNat 10 :: normNewlines t
      else Char.ofNat 10 :: normNewlines (d :: t)
    else c :: normNewlines (d :: t)

/-- Splitting file content into lines (after universal-newline
translation), as iterating over a Python text-mode file does.  A trailing
newline yields a final empty "line", which every consumer skips as blank. -/
def splitLines (l : Str) : List Str :=
  splitOnChar (Char.ofNat 10) (normNewlines l)

/-- Numeric value of a digit string (used to specify `parseDigits`). -/
def digitsVal (l : Str) : Nat :=
  l.foldl (fun a c => 10 * a + (c.toNat - 48)) 0

/-- A non-empty all-digit string parses to its value, anything else fails. -/
def parseDigits (l : Str) : Option Nat :=
  if l.isEmpty then none
  else if l.all Char.isDigit then some (digitsVal l) else none

/-- Python `int(s)` on a string: strip whitespace, optional sign, decimal
digits.  (Python additionally allows underscores between digits; that is not
modelled, and no saved file ever contains one.) -/
def pyInt (s : Str) : Option Int :=
  match pyStrip s with
  | [] => none
  | c :: r =>
    if c = Char.ofNat 45 then (parseDigits r).map (fun n => -(n : Int))
    else if c = Char.ofNat 43 then (parseDigits r).map (fun n => (n : Int))
    else (parseDigits (c :: r)).map (fun n => (n : Int))

/-- Parsing of one stripped, non-blank line of `books.txt` inside
`Library._load_books`: `book_id, title, author, copies = line.strip().split(',')`
followed by `int(copies)`; a `ValueError` from either step skips the line. -/
def parseBookLine (line : Str) : Option Book :=
  match splitOnChar (Char.ofNat 44) (pyStrip line) with
  | [i, t, a, c] =>
    match pyInt c with
    | some n => some ⟨i, t, a, n⟩
    | none => none
  | _ => none

/-- `Library._load_books`: iterate over the lines of the file content,
skip blank lines, collect the lines that parse. -/
def load_books (content : Str) : List Book :=
  (splitLines content).filterMap
    (fun line => if pyStrip line = ([] : Str) then none else parseBookLine line)

/-- Index of the first occurrence of `c`, if any. -/
def idxOf? (c : Char) : Str → Option Nat
  | [] => none
  | a :: t => if a == c then some 0 else (idxOf? c t).map (· + 1)

/-- Python `line.find(c, start)` for a single-character needle: the absolute
index of the first occurrence at position `≥ start`, else `-1`. -/
def pyFind (l : Str) (c : Char) (start : Nat) : Int :=
  match idxOf? c (l.drop start) with
  | some i => ((start + i : Nat) : Int)
  | none => -1

/-- Does `needle` start `hay`? -/
def startsWithStr : Str → Str → Bool
  | _, [] => true
  | [], _ :: _ => false
  | a :: as, b :: bs => a == b && startsWithStr as bs

/-- Python `needle in hay` substring containment. -/
def containsStr : Str → Str → Bool
  | [], n => startsWithStr [] n
  | a :: t, n => startsWithStr (a :: t) n || containsStr t n

/-- The literal `"Borrowed:"` scanned for in the transaction log. -/
def borrowedMark : Str := "Borrowed:".data

/-- The per-line parsing step of `Library.most_borrowed_book`: the extracted
title (if the line is tallied) together with the warnings printed for the
line.  The source wraps the extraction in `try/except` and prints a warning
in the `except` arm, but none of the operations in the `try` body
(`str.find`, slicing, `dict.get`) can raise, so every branch yields an empty
warning list; lines that fail extraction are skipped silently. -/
def parseLogLine (line : Str) : Option Str × List Str :=
  (if containsStr line borrowedMark then
    let ts : Int := pyFind line quoteChar 0 + 1
    let te : Int := pyFind line quoteChar ts.toNat
    if ts ≠ -1 ∧ te ≠ -1 then
      some ((line.drop ts.toNat).take (te.toNat - ts.toNat))
    else none
  else none, [])

/-- `current_borrow_counts[title] = current_borrow_counts.get(title, 0) + 1`
on an insertion-ordered association list (Python dicts preserve insertion
order). -/
def bump (counts : List (Str × Nat)) (t : Str) : List (Str × Nat) :=
  match counts with
  | [] => [(t, 1)]
  | (k, v) :: rest => if k == t then (k, v + 1) :: rest else (k, v) :: bump rest t

/-- The tally built by the parsing loop of `Library.most_borrowed_book`. -/
def tallyLog (lines : List Str) : List (Str × Nat) :=
  lines.foldl
    (fun acc line =>
      match (parseLogLine line).1 with
      | some t => bump acc t
      | none => acc) []

/-- All warnings printed by the parsing loop over the given lines. -/
def reportWarnings (lines : List Str) : List Str :=
  lines.foldl (fun acc line => acc ++ (parseLogLine line).2) []

/-- `max` over the counts of a non-empty tally (Python
`max(current_borrow_counts.values())`). -/
def maxCount (p : Str × Nat) (rest : List (Str × Nat)) : Nat :=
  rest.foldl (fun a q => Nat.max a q.2) p.2

/-- `Library.most_borrowed_book` on the lines of `transactions.log`:
`None` when no borrow was tallied ("No borrow transactions recorded yet."),
otherwise the titles tied for the maximum count, with that count. -/
def most_borrowed_book (lines : List Str) : Option (List Str × Nat) :=
  match tallyLog lines with
  | [] => none
  | p :: rest =>
    let m := maxCount p rest
    some (((p :: rest).filter (fun q => q.2 == m)).map Prod.fst, m)

/-- Modelled from the claim wording of C9 (refinement target, not from the
source): the characters strictly between the first and second single-quote
characters of the line. -/
def specTitleBetweenQuotes (l : Str) : Str :=
  ((l.dropWhile (fun c => c != quoteChar)).drop 1).takeWhile (fun c => c != quoteChar)

/-- Modelled from the claim wording of C9 (refinement target, not from the
source): a line is tallied exactly when `"Borrowed:"` occurs anywhere in it
and it contains at least two single-quote characters, and the tallied title
is the substring strictly between the first and second quotes. -/
def specExtract (l : Str) : Option Str :=
  if containsStr l borrowedMark && decide (2 ≤ l.count quoteChar) then
    some (specTitleBetweenQuotes l)
  else none


/-- Three realistic log lines: Dune borrowed twice, Foundation once. -/
def linesW : List Str :=
  [logLine "ts1".data (borrowMsg "Dune".data "Ann".data "M1".data),
   logLine "ts2".data (borrowMsg "Foundation".data "Ann".data "M1".data),
   logLine "ts3".data (borrowMsg "Dune".data "Bob".data "M2".data)]

/-- A log line containing `"Borrowed:"` but no quoted title, so title
extraction fails. -/
def malformedLine : Str := "Borrowed: Dune with no quotes".data

/-- Field sanity for the fragile comma-separated format: the field contains
no comma, newline or carriage return. -/
abbrev goodField (s : Str) : Prop :=
  ∀ c ∈ s, c ≠ Char.ofNat 44 ∧ c ≠ Char.ofNat 10 ∧ c ≠ Char.ofNat 13

/-- The string does not begin with a whitespace character (which
`line.strip()` in `_load_books` would eat). -/
def goodLead (s : Str) : Bool :=
  match s with
  | [] => true
  | c :: _ => !pyIsSpace c

/-- A book whose fields survive the comma-separated format: no separator or
line-break characters inside a field, and an id that does not start with
whitespace. -/
abbrev goodBook (b : Book) : Prop :=
  goodField b.book_id ∧ goodField b.title ∧ goodField b.author ∧
    goodLead b.book_id = true

/-- `available_copies ≥ 0` for every book of the state. -/
abbrev nonNegCopies (lib : Library) : Prop :=
  ∀ b ∈ lib.books, 0 ≤ b.available_copies

section ScanLemmas

variable {α : Type} {p : α → Bool} {f : α → α}

theorem findFirst_eq_none {l : List α} :
    findFirst p l = none ↔ ∀ x ∈ l, p x = false := by
  induction l with
  | nil => simp [findFirst]
  | cons a t ih =>
    by_cases h : p a <;> simp [findFirst, h, ih]

theorem findFirst_eq_some {l : List α} {b : α} (h : findFirst p l = some b) :
    ∃ A B, l = A ++ b :: B ∧ (∀ x ∈ A, p x = false) ∧ p b = true := by
  induction l with
  | nil => simp [findFirst] at h
  | cons a t ih =>
    by_cases ha : p a
    · simp [findFirst, ha] at h
      exact ⟨[], t, by simp [h], by simp, h ▸ ha⟩
    · simp [findFirst, ha] at h
      obtain ⟨A, B, rfl, hA, hb⟩ := ih h
      exact ⟨a :: A, B, rfl, by simpa [ha] using hA, hb⟩

theorem findFirst_append_cons {A B : List α} {b : α}
    (hA : ∀ x ∈ A, p x = false) (hb : p b = true) :
    findFirst p (A ++ b :: B) = some b := by
  induction A with
  | nil => simp [findFirst, hb]
  | cons a t ih =>
    have ha : p a = false := hA a (by simp)
    simp only [List.cons_append, findFirst, ha]
    simp only [Bool.false_eq_true, if_false]
    exact ih (fun x hx => hA x (by simp [hx]))

theorem updateFirst_append_cons {A B : List α} {b : α}
    (hA : ∀ x ∈ A, p x = false) (hb : p b = true) :
    updateFirst p f (A ++ b :: B) = A ++ f b :: B := by
  induction A with
  | nil => simp [updateFirst, hb]
  | cons a t ih =>
    have ha : p a = false := hA a (by simp)
    simp only [List.cons_append, updateFirst, ha]
    simp only [Bool.false_eq_true, if_false, List.cons.injEq, true_and]
    exact ih (fun x hx => hA x (by simp [hx]))

theorem updateFirst_map {α β : Type} (p : α → Bool) (f : α → α) (g : α → β)
    (hg : ∀ x, p x = true → g (f x) = g x) (l : List α) :
    (updateFirst p f l).map g = l.map g := by
  induction l with
  | nil => rfl
  | cons a t ih =>
    by_cases ha : p a <;> simp [updateFirst, ha, ih, hg a]

theorem mem_updateFirst {l : List α} {x : α} (h : x ∈ updateFirst p f l) :
    x ∈ l ∨ ∃ y ∈ l, p y = true ∧ x = f y := by
  induction l with
  | nil => simp [updateFirst] at h
  | cons a t ih =>
    by_cases ha : p a
    · simp only [updateFirst, ha, if_true] at h
      rcases List.mem_cons.mp h with h | h
      · exact Or.inr ⟨a, by simp, ha, h⟩
      · exact Or.inl (by simp [h])
    · simp only [updateFirst, ha, Bool.false_eq_true, if_false] at h
      rcases List.mem_cons.mp h with h | h
      · exact Or.inl (by simp [h])
      · rcases ih h with h | ⟨y, hy, hpy, hxy⟩
        · exact Or.inl (by simp [h])
        · exact Or.inr ⟨y, by simp [hy], hpy, hxy⟩

end ScanLemmas

section TxLemmas

theorem exists_first_split {α : Type} [DecidableEq α] {l : List α} {c : α}
    (h : c ∈ l) : ∃ A B, l = A ++ c :: B ∧ c ∉ A := by
  induction l with
  | nil => simp at h
  | cons a t ih =>
    by_cases hac : a = c
    · exact ⟨[], t, by simp [hac], by simp⟩
    · have hct : c ∈ t := by
        rcases List.mem_cons.mp h with h | h
        · exact absurd h.symm hac
        · exact h
      rcases ih hct with ⟨A, B, rfl, hA⟩
      exact ⟨a :: A, B, rfl, by simp [hA, Ne.symm hac]⟩

theorem erase_append_singleton {l : List Str} {t : Str} (h : t ∉ l) :
    (l ++ [t]).erase t = l := by
  induction l with
  | nil => simp
  | cons a as ih =>
    have hat : (a == t) = false := by
      simp only [beq_eq_false_iff_ne]
      intro hq
      exact h (by simp [hq])
    simp only [List.cons_append, List.erase_cons, hat]
    simp only [Bool.false_eq_true, if_false, List.cons.injEq, true_and]
    exact ih (fun hm => h (by simp [hm]))

/-- Inversion of a successful borrow: the guards that passed and the exact
new state. -/
theorem borrow_ok_elim {lib : Library} {ts mid t : Str}
    (hok : (borrow_transaction lib ts mid t).2 = TxResult.ok) :
    ∃ m b, find_member_by_id lib.members mid = some m ∧
      find_book_by_title lib.books t = some b ∧
      0 < b.available_copies ∧ b.title ∉ m.borrowed_books ∧
      (borrow_transaction lib ts mid t).1 =
        { books := updateFirst (bookMatches t) (fun bb => bb.update_copies (-1)) lib.books,
          members := updateFirst (memberMatches mid) (fun mm => mm.borrow_book b.title) lib.members,
          booksFile := save_books (updateFirst (bookMatches t)
            (fun bb => bb.update_copies (-1)) lib.books),
          membersFile := save_members (updateFirst (memberMatches mid)
            (fun mm => mm.borrow_book b.title) lib.members),
          log := lib.log ++ [logLine ts (borrowMsg b.title m.name m.member_id)] } := by
  rcases hm : find_member_by_id lib.members mid with _ | m
  · simp [borrow_transaction, hm] at hok
  rcases hb : find_book_by_title lib.books t with _ | b
  · simp [borrow_transaction, hm, hb] at hok
  by_cases h1 : b.available_copies ≤ 0
  · simp [borrow_transaction, hm, hb, h1] at hok
  by_cases h2 : b.title ∈ m.borrowed_books
  · simp [borrow_transaction, hm, hb, h1, h2] at hok
  exact ⟨m, b, rfl, rfl, by omega, h2, by simp [borrow_transaction, hm, hb, h1, h2]⟩

/-- Inversion of a successful return. -/
theorem return_ok_elim {lib : Library} {ts mid t : Str}
    (hok : (return_transaction lib ts mid t).2 = TxResult.ok) :
    ∃ m b, find_member_by_id lib.members mid = some m ∧
      find_book_by_title lib.books t = some b ∧
      b.title ∈ m.borrowed_books ∧
      (return_transaction lib ts mid t).1 =
        { books := updateFirst (bookMatches t) (fun bb => bb.update_copies 1) lib.books,
          members := updateFirst (memberMatches mid) (fun mm => mm.return_book b.title) lib.members,
          booksFile := save_books (updateFirst (bookMatches t)
            (fun bb => bb.update_copies 1) lib.books),
          membersFile := save_members (updateFirst (memberMatches mid)
            (fun mm => mm.return_book b.title) lib.members),
          log := lib.log ++ [logLine ts (returnMsg b.title m.name m.member_id)] } := by
  rcases hm : find_member_by_id lib.members mid with _ | m
  · simp [return_transaction, hm] at hok
  rcases hb : find_book_by_title lib.books t with _ | b
  · simp [return_transaction, hm, hb] at hok
  by_cases h2 : b.title ∈ m.borrowed_books
  · exact ⟨m, b, rfl, rfl, h2, by simp [return_transaction, hm, hb, h2]⟩
  · simp [return_transaction, hm, hb, h2] at hok

end TxLemmas

theorem bookMatches_update_copies (t : Str) (b : Book) (n : Int) :
    bookMatches t (b.update_copies n) = bookMatches t b := rfl

theorem memberMatches_borrow_book (mid t : Str) (m : Member) :
    memberMatches mid (m.borrow_book t) = memberMatches mid m := by
  unfold Member.borrow_book
  split <;> rfl

theorem memberMatches_return_book (mid t : Str) (m : Member) :
    memberMatches mid (m.return_book t) = memberMatches mid m := by
  unfold Member.return_book
  split <;> rfl

theorem update_copies_down_up (b : Book) :
    (b.update_copies (-1)).update_copies 1 = b := by
  cases b with
  | mk i t a c =>
    simp only [Book.update_copies]
    congr 1
    omega

/-- C1: when a member `M` and a book `B` of the catalog resolve to
themselves under the program's case-insensitive lookups and
`borrow_transaction(M.member_id, B.title)` succeeds, then `B`'s
`available_copies` decreases by exactly 1 and `B.title` is appended to `M`'s
borrowed list; a subsequent `return_transaction(M.member_id, B.title)`
succeeds and restores the book list and the member list exactly to their
values before the borrow (round-trip). -/
theorem c1_borrow_return_roundtrip (lib : Library) (B : Book) (M : Member)
    (ts ts2 : Str)
    (hB : find_book_by_title lib.books B.title = some B)
    (hM : find_member_by_id lib.members M.member_id = some M)
    (hok : (borrow_transaction lib ts M.member_id B.title).2 = TxResult.ok) :
    find_book_by_title (borrow_transaction lib ts M.member_id B.title).1.books B.title =
      some { B with available_copies := B.available_copies - 1 } ∧
    find_member_by_id (borrow_transaction lib ts M.member_id B.title).1.members M.member_id =
      some { M with borrowed_books := M.borrowed_books ++ [B.title] } ∧
    (return_transaction (borrow_transaction lib ts M.member_id B.title).1
        ts2 M.member_id B.title).2 = TxResult.ok ∧
    (return_transaction (borrow_transaction lib ts M.member_id B.title).1
        ts2 M.member_id B.title).1.books = lib.books ∧
    (return_transaction (borrow_transaction lib ts M.member_id B.title).1
        ts2 M.member_id B.title).1.members = lib.members := by
  obtain ⟨m, b, hm', hb', hpos, hnotmem, hstate⟩ := borrow_ok_elim hok
  have hbB : b = B := by
    have := hB.symm.trans hb'
    exact (Option.some.inj this).symm
  have hmM : m = M := by
    have := hM.symm.trans hm'
    exact (Option.some.inj this).symm
  rw [hbB] at hpos
  rw [hbB, hmM] at hnotmem
  rw [hbB, hmM] at hstate
  obtain ⟨A, Bb, hbooks, hAno, hpB⟩ := findFirst_eq_some hB
  obtain ⟨Am, Bm, hmem, hAmno, hpM⟩ := findFirst_eq_some hM
  have hupd : updateFirst (bookMatches B.title) (fun bb => bb.update_copies (-1)) lib.books =
      A ++ B.update_copies (-1) :: Bb := by
    rw [hbooks]
    exact updateFirst_append_cons hAno hpB
  have hupdm : updateFirst (memberMatches M.member_id)
      (fun mm => mm.borrow_book B.title) lib.members =
      Am ++ M.borrow_book B.title :: Bm := by
    rw [hmem]
    exact updateFirst_append_cons hAmno hpM
  have hborrowed : M.borrow_book B.title =
      { M with borrowed_books := M.borrowed_books ++ [B.title] } := by
    simp [Member.borrow_book, hnotmem]
  have hfb1 : find_book_by_title
      (borrow_transaction lib ts M.member_id B.title).1.books B.title =
      some (B.update_copies (-1)) := by
    rw [hstate]
    show find_book_by_title
      (updateFirst (bookMatches B.title) (fun bb => bb.update_copies (-1)) lib.books)
      B.title = _
    rw [hupd]
    exact findFirst_append_cons hAno (by rw [bookMatches_update_copies]; exact hpB)
  have hfm1 : find_member_by_id
      (borrow_transaction lib ts M.member_id B.title).1.members M.member_id =
      some (M.borrow_book B.title) := by
    rw [hstate]
    show find_member_by_id
      (updateFirst (memberMatches M.member_id)
        (fun mm => mm.borrow_book B.title) lib.members) M.member_id = _
    rw [hupdm]
    exact findFirst_append_cons hAmno (by rw [memberMatches_borrow_book]; exact hpM)
  have hmem1 : (B.update_copies (-1)).title ∈ (M.borrow_book B.title).borrowed_books := by
    rw [hborrowed]
    simp [Book.update_copies]
  have hretn : return_transaction (borrow_transaction lib ts M.member_id B.title).1
      ts2 M.member_id B.title =
      ({ books := updateFirst (bookMatches B.title) (fun bb => bb.update_copies 1)
            (borrow_transaction lib ts M.member_id B.title).1.books,
         members := updateFirst (memberMatches M.member_id)
            (fun mm => mm.return_book (B.update_copies (-1)).title)
            (borrow_transaction lib ts M.member_id B.title).1.members,
         booksFile := save_books (updateFirst (bookMatches B.title)
            (fun bb => bb.update_copies 1)
            (borrow_transaction lib ts M.member_id B.title).1.books),
         membersFile := save_members (updateFirst (memberMatches M.member_id)
            (fun mm => mm.return_book (B.update_copies (-1)).title)
            (borrow_transaction lib ts M.member_id B.title).1.members),
         log := (borrow_transaction lib ts M.member_id B.title).1.log ++
            [logLine ts2 (returnMsg (B.update_copies (-1)).title
              (M.borrow_book B.title).name (M.borrow_book B.title).member_id)] },
       TxResult.ok) := by
    rw [return_transaction, hfm1, hfb1]
    simp [hmem1]
  have hbooks2 : updateFirst (bookMatches B.title) (fun bb => bb.update_copies 1)
      (borrow_transaction lib ts M.member_id B.title).1.books = lib.books := by
    rw [hstate]
    show updateFirst _ _ (updateFirst (bookMatches B.title)
      (fun bb => bb.update_copies (-1)) lib.books) = _
    rw [hupd, updateFirst_append_cons hAno
      (by rw [bookMatches_update_copies]; exact hpB), update_copies_down_up, hbooks]
  have hmems2 : updateFirst (memberMatches M.member_id)
      (fun mm => mm.return_book (B.update_copies (-1)).title)
      (borrow_transaction lib ts M.member_id B.title).1.members = lib.members := by
    rw [hstate]
    show updateFirst _ _ (updateFirst (memberMatches M.member_id)
      (fun mm => mm.borrow_book B.title) lib.members) = _
    rw [hupdm, updateFirst_append_cons hAmno
      (by rw [memberMatches_borrow_book]; exact hpM)]
    have hret : (M.borrow_book B.title).return_book (B.update_copies (-1)).title = M := by
      rw [hborrowed]
      show Member.return_book _ B.title = M
      simp [Member.return_book, erase_append_singleton hnotmem]
    rw [hret, hmem]
  refine ⟨?_, ?_, ?_, ?_, ?_⟩
  · rw [hfb1]
    rfl
  · rw [hfm1, hborrowed]
  · rw [hretn]
  · rw [hretn]
    exact hbooks2
  · rw [hretn]
    exact hmems2

/-- C1 witness: a one-book, one-member library; borrowing then returning
restores the state. -/
theorem c1_witness :
    let lib : Library := { books := [⟨"B1".data, "Dune".data, "H".data, 2⟩],
                           members := [⟨"M1".data, "Ann".data, []⟩],
                           booksFile := [], membersFile := [], log := [] }
    let B : Book := ⟨"B1".data, "Dune".data, "H".data, 2⟩
    let M : Member := ⟨"M1".data, "Ann".data, []⟩
    find_book_by_title (borrow_transaction lib "t1".data M.member_id B.title).1.books B.title =
      some { B with available_copies := B.available_copies - 1 } ∧
    find_member_by_id (borrow_transaction lib "t1".data M.member_id B.title).1.members M.member_id =
      some { M with borrowed_books := M.borrowed_books ++ [B.title] } ∧
    (return_transaction (borrow_transaction lib "t1".data M.member_id B.title).1
        "t2".data M.member_id B.title).2 = TxResult.ok ∧
    (return_transaction (borrow_transaction lib "t1".data M.member_id B.title).1
        "t2".data M.member_id B.title).1.books = lib.books ∧
    (return_transaction (borrow_transaction lib "t1".data M.member_id B.title).1
        "t2".data M.member_id B.title).1.members = lib.members :=
  c1_borrow_return_roundtrip _ _ _ _ _ (by decide) (by decide) (by decide)


/-- C10: a successful borrow changes only the first book matched by the
title (and only its `available_copies`, via `update_copies`) and the first
member matched by the id (and only its `borrowed_books`, via
`borrow_book`); every book and member outside the matched positions is
untouched.  The same holds for a successful return. -/
theorem c10_success_frame (lib : Library) (ts mid t : Str) :
    ((borrow_transaction lib ts mid t).2 = TxResult.ok →
      ∃ m b A Bb Am Bm,
        find_member_by_id lib.members mid = some m ∧
        find_book_by_title lib.books t = some b ∧
        b.title ∉ m.borrowed_books ∧
        lib.books = A ++ b :: Bb ∧
        (borrow_transaction lib ts mid t).1.books = A ++ b.update_copies (-1) :: Bb ∧
        lib.members = Am ++ m :: Bm ∧
        (borrow_transaction lib ts mid t).1.members = Am ++ m.borrow_book b.title :: Bm) ∧
    ((return_transaction lib ts mid t).2 = TxResult.ok →
      ∃ m b A Bb Am Bm,
        find_member_by_id lib.members mid = some m ∧
        find_book_by_title lib.books t = some b ∧
        b.title ∈ m.borrowed_books ∧
        lib.books = A ++ b :: Bb ∧
        (return_transaction lib ts mid t).1.books = A ++ b.update_copies 1 :: Bb ∧
        lib.members = Am ++ m :: Bm ∧
        (return_transaction lib ts mid t).1.members = Am ++ m.return_book b.title :: Bm) := by
  constructor
  · intro hok
    obtain ⟨m, b, hm, hb, _, hnot, hstate⟩ := borrow_ok_elim hok
    obtain ⟨A, Bb, hbooks, hAno, hpB⟩ := findFirst_eq_some hb
    obtain ⟨Am, Bm, hmems, hAmno, hpM⟩ := findFirst_eq_some hm
    refine ⟨m, b, A, Bb, Am, Bm, hm, hb, hnot, hbooks, ?_, hmems, ?_⟩
    · rw [hstate]
      show updateFirst (bookMatches t) (fun bb => bb.update_copies (-1)) lib.books = _
      rw [hbooks]
      exact updateFirst_append_cons hAno hpB
    · rw [hstate]
      show updateFirst (memberMatches mid) (fun mm => mm.borrow_book b.title) lib.members = _
      rw [hmems]
      exact updateFirst_append_cons hAmno hpM
  · intro hok
    obtain ⟨m, b, hm, hb, hmem, hstate⟩ := return_ok_elim hok
    obtain ⟨A, Bb, hbooks, hAno, hpB⟩ := findFirst_eq_some hb
    obtain ⟨Am, Bm, hmems, hAmno, hpM⟩ := findFirst_eq_some hm
    refine ⟨m, b, A, Bb, Am, Bm, hm, hb, hmem, hbooks, ?_, hmems, ?_⟩
    · rw [hstate]
      show updateFirst (bookMatches t) (fun bb => bb.update_copies 1) lib.books = _
      rw [hbooks]
      exact updateFirst_append_cons hAno hpB
    · rw [hstate]
      show updateFirst (memberMatches mid) (fun mm => mm.return_book b.title) lib.members = _
      rw [hmems]
      exact updateFirst_append_cons hAmno hpM

/-- C10 witness: concrete two-book, two-member libraries where a borrow and
a return succeed, with the frame decomposition instantiated. -/
theorem c10_witness :
    (∃ m b A Bb Am Bm,
      find_member_by_id libW1.members "M2".data = some m ∧
      find_book_by_title libW1.books "Dune".data = some b ∧
      b.title ∉ m.borrowed_books ∧
      libW1.books = A ++ b :: Bb ∧
      (borrow_transaction libW1 "t".data "M2".data "Dune".data).1.books =
        A ++ b.update_copies (-1) :: Bb ∧
      libW1.members = Am ++ m :: Bm ∧
      (borrow_transaction libW1 "t".data "M2".data "Dune".data).1.members =
        Am ++ m.borrow_book b.title :: Bm) ∧
    (∃ m b A Bb Am Bm,
      find_member_by_id libW2.members "M2".data = some m ∧
      find_book_by_title libW2.books "Dune".data = some b ∧
      b.title ∈ m.borrowed_books ∧
      libW2.books = A ++ b :: Bb ∧
      (return_transaction libW2 "t".data "M2".data "Dune".data).1.books =
        A ++ b.update_copies 1 :: Bb ∧
      libW2.members = Am ++ m :: Bm ∧
      (return_transaction libW2 "t".data "M2".data "Dune".data).1.members =
        Am ++ m.return_book b.title :: Bm) :=
  ⟨(c10_success_frame libW1 "t".data "M2".data "Dune".data).1 (by decide),
   (c10_success_frame libW2 "t".data "M2".data "Dune".data).2 (by decide)⟩

theorem borrow_fail_noop {lib : Library} {ts mid t : Str}
    (h : (borrow_transaction lib ts mid t).2 ≠ TxResult.ok) :
    (borrow_transaction lib ts mid t).1 = lib := by
  rcases hm : find_member_by_id lib.members mid with _ | m
  · simp [borrow_transaction, hm]
  rcases hb : find_book_by_title lib.books t with _ | b
  · simp [borrow_transaction, hm, hb]
  by_cases h1 : b.available_copies ≤ 0
  · simp [borrow_transaction, hm, hb, h1]
  by_cases h2 : b.title ∈ m.borrowed_books
  · simp [borrow_transaction, hm, hb, h1, h2]
  · exfalso
    exact h (by simp [borrow_transaction, hm, hb, h1, h2])

theorem return_fail_noop {lib : Library} {ts mid t : Str}
    (h : (return_transaction lib ts mid t).2 ≠ TxResult.ok) :
    (return_transaction lib ts mid t).1 = lib := by
  rcases hm : find_member_by_id lib.members mid with _ | m
  · simp [return_transaction, hm]
  rcases hb : find_book_by_title lib.books t with _ | b
  · simp [return_transaction, hm, hb]
  by_cases h2 : b.title ∈ m.borrowed_books
  · exfalso
    exact h (by simp [return_transaction, hm, hb, h2])
  · simp [return_transaction, hm, hb, h2]

theorem add_member_books (lib : Library) (i n : Str) :
    (add_member lib i n).1.books = lib.books := by
  rcases hf : find_member_by_id lib.members i with _ | m <;> simp [add_member, hf]

/-- C2: every failing call of `borrow_transaction` or `return_transaction`
(member not found, book not found, no available copies, title already in the
member's borrowed list, title not in the member's borrowed list) leaves the
entire library state — books, members, both data files and the log —
unchanged. -/
theorem c2_failed_transactions_are_noops (lib : Library) (ts mid t : Str) :
    ((borrow_transaction lib ts mid t).2 ≠ TxResult.ok →
      (borrow_transaction lib ts mid t).1 = lib) ∧
    ((return_transaction lib ts mid t).2 ≠ TxResult.ok →
      (return_transaction lib ts mid t).1 = lib) :=
  ⟨fun h => borrow_fail_noop h, fun h => return_fail_noop h⟩

/-- C2 witness: on a fresh library both transactions fail (member not
found) and change nothing. -/
theorem c2_witness :
    (borrow_transaction emptyLib "t".data "M1".data "Dune".data).1 = emptyLib ∧
    (return_transaction emptyLib "t".data "M1".data "Dune".data).1 = emptyLib :=
  ⟨(c2_failed_transactions_are_noops emptyLib "t".data "M1".data "Dune".data).1
      (by decide),
   (c2_failed_transactions_are_noops emptyLib "t".data "M1".data "Dune".data).2
      (by decide)⟩


/-- C4 counterexample: the claim includes `add_book` among the operations
preserving `available_copies ≥ 0`, but `add_book` performs no validation of
its copies argument: adding a book with `-1` copies to a well-formed (empty)
library yields a state with a negative count. -/
theorem c4_counterexample :
    nonNegCopies emptyLib ∧
    ¬ nonNegCopies (add_book emptyLib "1".data "T".data "A".data (-1)).1 := by
  decide

/-- C4 (amended): `add_member`, `borrow_transaction` and `return_transaction`
preserve `available_copies ≥ 0`, and `add_book` preserves it provided its
copies argument is non-negative (the code never validates that argument);
moreover a borrow only succeeds when the matched book's count is strictly
positive, so a count that is `≤ 0` is never decremented. -/
theorem c4_copies_stay_nonneg :
    (∀ (lib : Library) (i n : Str),
      nonNegCopies lib → nonNegCopies (add_member lib i n).1) ∧
    (∀ (lib : Library) (i t a : Str) (c : Int),
      0 ≤ c → nonNegCopies lib → nonNegCopies (add_book lib i t a c).1) ∧
    (∀ (lib : Library) (ts mid t : Str),
      nonNegCopies lib → nonNegCopies (borrow_transaction lib ts mid t).1) ∧
    (∀ (lib : Library) (ts mid t : Str),
      nonNegCopies lib → nonNegCopies (return_transaction lib ts mid t).1) ∧
    (∀ (lib : Library) (ts mid t : Str) (b : Book),
      (borrow_transaction lib ts mid t).2 = TxResult.ok →
      find_book_by_title lib.books t = some b → 0 < b.available_copies) := by
  refine ⟨?_, ?_, ?_, ?_, ?_⟩
  · intro lib i n hnn b hb
    rw [add_member_books] at hb
    exact hnn b hb
  · intro lib i t a c hc hnn x hx
    rcases hf : find_book_by_title lib.books t with _ | b
    · have : (add_book lib i t a c).1.books = lib.books ++ [⟨i, t, a, c⟩] := by
        simp [add_book, hf]
      rw [this] at hx
      rcases List.mem_append.mp hx with h | h
      · exact hnn x h
      · simp at h
        rw [h]
        exact hc
    · have : (add_book lib i t a c).1 = lib := by simp [add_book, hf]
      rw [this] at hx
      exact hnn x hx
  · intro lib ts mid t hnn x hx
    by_cases hok : (borrow_transaction lib ts mid t).2 = TxResult.ok
    · obtain ⟨m, b, hm, hb, hpos, _, hstate⟩ := borrow_ok_elim hok
      obtain ⟨A, Bb, hbooks, hAno, hpB⟩ := findFirst_eq_some hb
      rw [hstate] at hx
      have : x ∈ updateFirst (bookMatches t) (fun bb => bb.update_copies (-1)) lib.books := hx
      rw [hbooks, updateFirst_append_cons hAno hpB] at this
      rcases List.mem_append.mp this with h | h
      · exact hnn x (by rw [hbooks]; exact List.mem_append_left _ h)
      · rcases List.mem_cons.mp h with h | h
        · rw [h]
          simp only [Book.update_copies]
          omega
        · exact hnn x (by rw [hbooks]; exact List.mem_append_right _ (by simp [h]))
    · rw [borrow_fail_noop hok] at hx
      exact hnn x hx
  · intro lib ts mid t hnn x hx
    by_cases hok : (return_transaction lib ts mid t).2 = TxResult.ok
    · obtain ⟨m, b, hm, hb, _, hstate⟩ := return_ok_elim hok
      obtain ⟨A, Bb, hbooks, hAno, hpB⟩ := findFirst_eq_some hb
      rw [hstate] at hx
      have : x ∈ updateFirst (bookMatches t) (fun bb => bb.update_copies 1) lib.books := hx
      rw [hbooks, updateFirst_append_cons hAno hpB] at this
      have hbnn : 0 ≤ b.available_copies :=
        hnn b (by rw [hbooks]; exact List.mem_append_right _ (by simp))
      rcases List.mem_append.mp this with h | h
      · exact hnn x (by rw [hbooks]; exact List.mem_append_left _ h)
      · rcases List.mem_cons.mp h with h | h
        · rw [h]
          simp only [Book.update_copies]
          omega
        · exact hnn x (by rw [hbooks]; exact List.mem_append_right _ (by simp [h]))
    · rw [return_fail_noop hok] at hx
      exact hnn x hx
  · intro lib ts mid t b hok hf
    obtain ⟨m, b2, hm, hb2, hpos, _, _⟩ := borrow_ok_elim hok
    have : b2 = b := Option.some.inj (hb2.symm.trans hf)
    rw [this] at hpos
    exact hpos

/-- C4 witness: concrete instantiations of each preservation conjunct and of
the no-decrement-at-zero conjunct. -/
theorem c4_witness :
    nonNegCopies (add_member emptyLib "M1".data "Ann".data).1 ∧
    nonNegCopies (add_book emptyLib "1".data "T".data "A".data 2).1 ∧
    nonNegCopies (borrow_transaction libW1 "t".data "M2".data "Dune".data).1 ∧
    nonNegCopies (return_transaction libW2 "t".data "M2".data "Dune".data).1 ∧
    0 < (2 : Int) :=
  ⟨c4_copies_stay_nonneg.1 emptyLib "M1".data "Ann".data (by decide),
   c4_copies_stay_nonneg.2.1 emptyLib "1".data "T".data "A".data 2 (by decide) (by decide),
   c4_copies_stay_nonneg.2.2.1 libW1 "t".data "M2".data "Dune".data (by decide),
   c4_copies_stay_nonneg.2.2.2.1 libW2 "t".data "M2".data "Dune".data (by decide),
   c4_copies_stay_nonneg.2.2.2.2 libW1 "t".data "M2".data "Dune".data
     ⟨"B1".data, "Dune".data, "H".data, 2⟩ (by decide) (by decide)⟩

/-- C5 counterexample: `add_book` only rejects duplicate titles, never
duplicate ids, so two `add_book` calls with the same id and different titles
produce a reachable state whose catalog has two books with id `"1"`. -/
theorem c5_counterexample :
    Reachable (add_book (add_book emptyLib "1".data "A".data "x".data 1).1
      "1".data "B".data "y".data 1).1 ∧
    ¬ ((add_book (add_book emptyLib "1".data "A".data "x".data 1).1
      "1".data "B".data "y".data 1).1.books.Pairwise
        (fun b1 b2 => b1.book_id ≠ b2.book_id)) := by
  constructor
  · exact Reachable.add_book _ _ _ _ _ (Reachable.add_book _ _ _ _ _ Reachable.empty)
  · decide

/-- C5 (amended): in every state reachable from an empty catalog, book
titles are unique up to case (the key `add_book` actually checks); book ids
are not enforced unique and may repeat. -/
theorem c5_reachable_titles_nodup (lib : Library) (h : Reachable lib) :
    (lib.books.map (fun b => lowerStr b.title)).Nodup := by
  induction h with
  | empty => simp [emptyLib]
  | add_book lib i t a c hr ih =>
    rcases hf : find_book_by_title lib.books t with _ | b
    · have hbooks : (add_book lib i t a c).1.books = lib.books ++ [⟨i, t, a, c⟩] := by
        simp [add_book, hf]
      have hno := findFirst_eq_none.mp hf
      rw [hbooks, List.map_append]
      refine List.Nodup.append ih (by simp) ?_
      intro x hx1 hx2
      simp only [List.mem_map] at hx1
      obtain ⟨b, hb, rfl⟩ := hx1
      simp only [List.map_cons, List.map_nil, List.mem_singleton] at hx2
      have hne : lowerStr b.title ≠ lowerStr t := by
        have := hno b hb
        simpa [bookMatches] using this
      exact hne hx2
    · have : (add_book lib i t a c).1 = lib := by simp [add_book, hf]
      rw [this]
      exact ih
  | add_member lib i n hr ih =>
    rw [add_member_books]
    exact ih
  | borrow lib ts mid t hr ih =>
    by_cases hok : (borrow_transaction lib ts mid t).2 = TxResult.ok
    · obtain ⟨m, b, hm, hb, _, _, hstate⟩ := borrow_ok_elim hok
      rw [hstate]
      show ((updateFirst (bookMatches t) (fun bb => bb.update_copies (-1))
        lib.books).map (fun b => lowerStr b.title)).Nodup
      rw [updateFirst_map (bookMatches t) (fun bb => bb.update_copies (-1))
        (fun b => lowerStr b.title) (fun x _ => rfl)]
      exact ih
    · rw [borrow_fail_noop hok]
      exact ih
  | ret lib ts mid t hr ih =>
    by_cases hok : (return_transaction lib ts mid t).2 = TxResult.ok
    · obtain ⟨m, b, hm, hb, _, hstate⟩ := return_ok_elim hok
      rw [hstate]
      show ((updateFirst (bookMatches t) (fun bb => bb.update_copies 1)
        lib.books).map (fun b => lowerStr b.title)).Nodup
      rw [updateFirst_map (bookMatches t) (fun bb => bb.update_copies 1)
        (fun b => lowerStr b.title) (fun x _ => rfl)]
      exact ih
    · rw [return_fail_noop hok]
      exact ih

/-- C5 witness: the amended invariant evaluated at the empty library. -/
theorem c5_witness : ((emptyLib).books.map (fun b => lowerStr b.title)).Nodup :=
  c5_reachable_titles_nodup emptyLib Reachable.empty

/-- C8: `add_book` fails (returning the state unchanged, with the
duplicate-title error printed) exactly when a book with the same title,
compared case-insensitively, already exists; otherwise it appends exactly
one book with the given field values and rewrites the book file to the
serialization of the new collection, touching nothing else. -/
theorem c8_add_book_contract (lib : Library) (i t a : Str) (c : Int) :
    ((add_book lib i t a c).2 = false ↔
      ∃ b ∈ lib.books, lowerStr b.title = lowerStr t) ∧
    ((add_book lib i t a c).2 = false → (add_book lib i t a c).1 = lib) ∧
    ((add_book lib i t a c).2 = true →
      (add_book lib i t a c).1.books = lib.books ++ [⟨i, t, a, c⟩] ∧
      (add_book lib i t a c).1.booksFile = save_books (lib.books ++ [⟨i, t, a, c⟩]) ∧
      (add_book lib i t a c).1.members = lib.members ∧
      (add_book lib i t a c).1.membersFile = lib.membersFile ∧
      (add_book lib i t a c).1.log = lib.log) := by
  rcases hf : find_book_by_title lib.books t with _ | b
  · have hno := findFirst_eq_none.mp hf
    refine ⟨?_, ?_, ?_⟩
    · constructor
      · intro h
        exfalso
        simp [add_book, hf] at h
      · intro ⟨b, hb, heq⟩
        exfalso
        have := hno b hb
        rw [bookMatches, heq] at this
        simp at this
    · intro h
      exfalso
      simp [add_book, hf] at h
    · intro _
      simp [add_book, hf]
  · obtain ⟨A, B2, hbooks, hAno, hpb⟩ := findFirst_eq_some hf
    refine ⟨?_, ?_, ?_⟩
    · constructor
      · intro _
        refine ⟨b, by simp [hbooks], ?_⟩
        simpa [bookMatches] using hpb
      · intro _
        simp [add_book, hf]
    · intro _
      simp [add_book, hf]
    · intro h
      exfalso
      simp [add_book, hf] at h

/-- C8 witness: adding to an empty catalog succeeds and appends the one
book, rewriting the book file. -/
theorem c8_witness :
    (add_book emptyLib "1".data "T".data "A".data 2).1.books =
      emptyLib.books ++ [⟨"1".data, "T".data, "A".data, 2⟩] ∧
    (add_book emptyLib "1".data "T".data "A".data 2).1.booksFile =
      save_books (emptyLib.books ++ [⟨"1".data, "T".data, "A".data, 2⟩]) ∧
    (add_book emptyLib "1".data "T".data "A".data 2).1.members = emptyLib.members ∧
    (add_book emptyLib "1".data "T".data "A".data 2).1.membersFile = emptyLib.membersFile ∧
    (add_book emptyLib "1".data "T".data "A".data 2).1.log = emptyLib.log :=
  (c8_add_book_contract emptyLib "1".data "T".data "A".data 2).2.2 (by decide)


section MaxLemmas

theorem foldl_max_le (l : List (Str × Nat)) (a : Nat) :
    a ≤ l.foldl (fun a q => Nat.max a q.2) a := by
  induction l generalizing a with
  | nil => exact Nat.le_refl a
  | cons x t ih => exact Nat.le_trans (Nat.le_max_left a x.2) (ih (Nat.max a x.2))

theorem foldl_max_mem_le (l : List (Str × Nat)) (a : Nat) (x : Str × Nat)
    (hx : x ∈ l) : x.2 ≤ l.foldl (fun a q => Nat.max a q.2) a := by
  induction l generalizing a with
  | nil => simp at hx
  | cons y t ih =>
    rcases List.mem_cons.mp hx with h | h
    · rw [h]
      exact Nat.le_trans (Nat.le_max_right a y.2) (foldl_max_le t (Nat.max a y.2))
    · exact ih (Nat.max a y.2) h

theorem foldl_max_attained (l : List (Str × Nat)) (a : Nat) :
    l.foldl (fun a q => Nat.max a q.2) a = a ∨
    ∃ x ∈ l, l.foldl (fun a q => Nat.max a q.2) a = x.2 := by
  induction l generalizing a with
  | nil => exact Or.inl rfl
  | cons y t ih =>
    rcases ih (Nat.max a y.2) with h | ⟨x, hx, hxe⟩
    · rcases Nat.le_total y.2 a with hle | hle
      · exact Or.inl (by simp only [List.foldl_cons]; rw [h]; exact Nat.max_eq_left hle)
      · exact Or.inr ⟨y, by simp, by simp only [List.foldl_cons]; rw [h]; exact Nat.max_eq_right hle⟩
    · exact Or.inr ⟨x, by simp [hx], by simpa using hxe⟩

end MaxLemmas

/-- C3: when `most_borrowed_book` produces a result, the reported count `m`
is the maximum tallied count (an upper bound that is attained), and the
reported titles are exactly those tallied with count `m`; ties all appear. -/
theorem c3_most_borrowed_ties (lines : List Str) (sel : List Str) (m : Nat)
    (h : most_borrowed_book lines = some (sel, m)) :
    (∀ p ∈ tallyLog lines, p.2 ≤ m) ∧
    (∃ p ∈ tallyLog lines, p.2 = m) ∧
    (∀ t, t ∈ sel ↔ (t, m) ∈ tallyLog lines) := by
  rcases htl : tallyLog lines with _ | ⟨p, rest⟩
  · rw [most_borrowed_book, htl] at h
    simp at h
  · rw [most_borrowed_book, htl] at h
    simp only [Option.some.injEq, Prod.mk.injEq] at h
    obtain ⟨hsel, hm⟩ := h
    refine ⟨?_, ?_, ?_⟩
    · intro q hq
      rw [← hm]
      rcases List.mem_cons.mp hq with hh | hh
      · rw [hh]
        exact foldl_max_le rest p.2
      · exact foldl_max_mem_le rest p.2 q hh
    · rcases foldl_max_attained rest p.2 with hh | ⟨x, hx, hxe⟩
      · exact ⟨p, by simp, by rw [← hm]; exact hh.symm⟩
      · exact ⟨x, by simp [hx], by rw [← hm]; exact hxe.symm⟩
    · intro t
      rw [← hsel]
      constructor
      · intro ht
        simp only [List.mem_map, List.mem_filter] at ht
        obtain ⟨q, ⟨hqmem, hq2⟩, hq1⟩ := ht
        have hq2' : q.2 = m := by
          rw [← hm]
          simpa using hq2
        have : q = (t, m) := by
          rw [← hq1, ← hq2']
        rw [← this]
        exact hqmem
      · intro ht
        simp only [List.mem_map, List.mem_filter]
        exact ⟨(t, m), ⟨ht, by simp [hm]⟩, rfl⟩

/-- C3 witness: a log with two Dune borrows and one Foundation borrow
reports exactly Dune with count 2. -/
theorem c3_witness :
    (∀ p ∈ tallyLog linesW, p.2 ≤ 2) ∧
    (∃ p ∈ tallyLog linesW, p.2 = 2) ∧
    (∀ t, t ∈ ["Dune".data] ↔ (t, 2) ∈ tallyLog linesW) :=
  c3_most_borrowed_ties linesW ["Dune".data] 2 (by decide)

theorem parseLogLine_snd (l : Str) : (parseLogLine l).2 = [] := rfl

/-- C6 counterexample: a log line that contains `"Borrowed:"` but no quoted
title fails extraction, yet the program prints no warning for it (the
warning sits in an `except` arm no string operation can trigger): it is
skipped silently, not "with a printed warning". -/
theorem c6_counterexample :
    containsStr malformedLine borrowedMark = true ∧
    (parseLogLine malformedLine).1 = none ∧
    (parseLogLine malformedLine).2 = [] ∧
    reportWarnings [malformedLine] = [] := by
  decide

/-- C6 (amended): a log line whose title extraction fails is skipped
silently — it contributes nothing to the tally, produces no warning, and
does not stop the report. -/
theorem c6_malformed_skipped (xs ys : List Str) (l : Str)
    (h : (parseLogLine l).1 = none) :
    tallyLog (xs ++ l :: ys) = tallyLog (xs ++ ys) ∧ (parseLogLine l).2 = [] := by
  refine ⟨?_, parseLogLine_snd l⟩
  rw [tallyLog, tallyLog, List.foldl_append, List.foldl_append, List.foldl_cons, h]

/-- C6 witness: the malformed line dropped from a concrete log changes
nothing. -/
theorem c6_witness :
    tallyLog ([logLine "ts1".data (borrowMsg "Dune".data "Ann".data "M1".data)] ++
      malformedLine :: []) =
    tallyLog ([logLine "ts1".data (borrowMsg "Dune".data "Ann".data "M1".data)] ++ []) ∧
    (parseLogLine malformedLine).2 = [] :=
  c6_malformed_skipped [logLine "ts1".data (borrowMsg "Dune".data "Ann".data "M1".data)]
    [] malformedLine (by decide)


section FindLemmas

theorem idxOf?_eq_none {c : Char} {l : Str} (h : c ∉ l) : idxOf? c l = none := by
  induction l with
  | nil => rfl
  | cons a t ih =>
    have hac : (a == c) = false := by
      simp only [beq_eq_false_iff_ne]
      intro e
      exact h (by simp [e])
    simp only [idxOf?, hac, Bool.false_eq_true, if_false]
    rw [ih (fun hm => h (by simp [hm]))]
    rfl

theorem idxOf?_append {c : Char} {A B : Str} (h : c ∉ A) :
    idxOf? c (A ++ c :: B) = some A.length := by
  induction A with
  | nil => simp [idxOf?]
  | cons a t ih =>
    have hac : (a == c) = false := by
      simp only [beq_eq_false_iff_ne]
      intro e
      exact h (by simp [e])
    simp only [List.cons_append, idxOf?, hac, Bool.false_eq_true, if_false, List.append_eq]
    rw [ih (fun hm => h (by simp [hm]))]
    simp [Nat.add_comm]

theorem drop_append_len {A : Str} {c : Char} {B : Str} :
    (A ++ c :: B).drop (A.length + 1) = B := by
  induction A with
  | nil => simp
  | cons a t ih => simpa using ih

theorem take_append_len {C : Str} {c : Char} {D : Str} :
    (C ++ c :: D).take C.length = C := by
  induction C with
  | nil => simp
  | cons a t ih => simpa using ih

theorem dropWhile_ne_append {A B : Str} {c : Char} (h : c ∉ A) :
    (A ++ c :: B).dropWhile (fun x => x != c) = c :: B := by
  induction A with
  | nil => simp [List.dropWhile]
  | cons a t ih =>
    have hac : (a != c) = true := by
      simp only [bne_iff_ne, ne_eq]
      intro e
      exact h (by simp [e])
    simp only [List.cons_append, List.dropWhile, hac]
    exact ih (fun hm => h (by simp [hm]))

theorem takeWhile_ne_append {C D : Str} {c : Char} (h : c ∉ C) :
    (C ++ c :: D).takeWhile (fun x => x != c) = C := by
  induction C with
  | nil => simp [List.takeWhile]
  | cons a t ih =>
    have hac : (a != c) = true := by
      simp only [bne_iff_ne, ne_eq]
      intro e
      exact h (by simp [e])
    simp only [List.cons_append, List.takeWhile, hac, List.append_eq]
    rw [ih (fun hm => h (by simp [hm]))]

end FindLemmas

/-- C9: a log line is tallied by `most_borrowed_book` exactly when
`"Borrowed:"` occurs anywhere in it and it contains at least two
single-quote characters, and the tallied title is the substring strictly
between the first and the second quote of the whole line.  (Hence a title
containing an apostrophe is tallied under its truncated prefix, and a
`Returned:` line whose title contains the text `Borrowed:` is counted as a
borrow.) -/
theorem c9_extraction_characterization (line : Str) :
    (parseLogLine line).1 = specExtract line := by
  by_cases hmk : containsStr line borrowedMark
  · by_cases hq : quoteChar ∈ line
    · obtain ⟨A, B, rfl, hA⟩ := exists_first_split hq
      have hfind1 : pyFind (A ++ quoteChar :: B) quoteChar 0 = ((A.length : Nat) : Int) := by
        simp [pyFind, idxOf?_append hA]
      have hts : (pyFind (A ++ quoteChar :: B) quoteChar 0 + 1).toNat = A.length + 1 := by
        rw [hfind1]
        omega
      by_cases hq2 : quoteChar ∈ B
      · obtain ⟨C, D, rfl, hC⟩ := exists_first_split hq2
        have hfind2 : pyFind (A ++ quoteChar :: (C ++ quoteChar :: D)) quoteChar (A.length + 1) =
            ((A.length + 1 + C.length : Nat) : Int) := by
          simp only [pyFind, drop_append_len, idxOf?_append hC]
        have hcount : 2 ≤ (A ++ quoteChar :: (C ++ quoteChar :: D)).count quoteChar := by
          simp only [List.count_append, List.count_cons, beq_self_eq_true, if_true]
          omega
        have hL : (parseLogLine (A ++ quoteChar :: (C ++ quoteChar :: D))).1 = some C := by
          show (if containsStr (A ++ quoteChar :: (C ++ quoteChar :: D)) borrowedMark then _ else none) = _
          rw [if_pos hmk]
          show (if (pyFind (A ++ quoteChar :: (C ++ quoteChar :: D)) quoteChar 0 + 1) ≠ -1 ∧
              pyFind (A ++ quoteChar :: (C ++ quoteChar :: D)) quoteChar
                (pyFind (A ++ quoteChar :: (C ++ quoteChar :: D)) quoteChar 0 + 1).toNat ≠ -1 then
            some (((A ++ quoteChar :: (C ++ quoteChar :: D)).drop
                (pyFind (A ++ quoteChar :: (C ++ quoteChar :: D)) quoteChar 0 + 1).toNat).take
              ((pyFind (A ++ quoteChar :: (C ++ quoteChar :: D)) quoteChar
                  (pyFind (A ++ quoteChar :: (C ++ quoteChar :: D)) quoteChar 0 + 1).toNat).toNat -
                (pyFind (A ++ quoteChar :: (C ++ quoteChar :: D)) quoteChar 0 + 1).toNat))
          else none) = some C
          rw [hts, hfind2, hfind1]
          rw [if_pos (by constructor <;> omega)]
          rw [drop_append_len]
          congr 1
          have : ((A.length + 1 + C.length : Nat) : Int).toNat - (A.length + 1) = C.length := by
            omega
          rw [this, take_append_len]
        rw [hL, specExtract, if_pos]
        · rw [specTitleBetweenQuotes, dropWhile_ne_append hA]
          simp only [List.drop_one, List.tail_cons]
          rw [takeWhile_ne_append hC]
        · simp only [Bool.and_eq_true, decide_eq_true_eq]
          exact ⟨hmk, hcount⟩
      · have hfind2 : pyFind (A ++ quoteChar :: B) quoteChar (A.length + 1) = -1 := by
          simp only [pyFind, drop_append_len, idxOf?_eq_none hq2]
        have hL : (parseLogLine (A ++ quoteChar :: B)).1 = none := by
          show (if containsStr (A ++ quoteChar :: B) borrowedMark then _ else none) = _
          rw [if_pos hmk]
          show (if (pyFind (A ++ quoteChar :: B) quoteChar 0 + 1) ≠ -1 ∧
              pyFind (A ++ quoteChar :: B) quoteChar
                (pyFind (A ++ quoteChar :: B) quoteChar 0 + 1).toNat ≠ -1 then
            some (((A ++ quoteChar :: B).drop
                (pyFind (A ++ quoteChar :: B) quoteChar 0 + 1).toNat).take
              ((pyFind (A ++ quoteChar :: B) quoteChar
                  (pyFind (A ++ quoteChar :: B) quoteChar 0 + 1).toNat).toNat -
                (pyFind (A ++ quoteChar :: B) quoteChar 0 + 1).toNat))
          else none) = none
          rw [hts, hfind2]
          rw [if_neg]
          intro ⟨_, h2⟩
          exact h2 rfl
        have hcount : (A ++ quoteChar :: B).count quoteChar = 1 := by
          rw [List.count_append, List.count_cons]
          rw [List.count_eq_zero.mpr hA, List.count_eq_zero.mpr hq2]
          simp
        rw [hL, specExtract, if_neg]
        simp only [Bool.and_eq_true, decide_eq_true_eq, not_and]
        intro _
        omega
    · have hfind1 : pyFind line quoteChar 0 = -1 := by
        simp [pyFind, idxOf?_eq_none hq]
      have hL : (parseLogLine line).1 = none := by
        show (if containsStr line borrowedMark then _ else none) = _
        rw [if_pos hmk]
        show (if (pyFind line quoteChar 0 + 1) ≠ -1 ∧
            pyFind line quoteChar (pyFind line quoteChar 0 + 1).toNat ≠ -1 then
          some ((line.drop (pyFind line quoteChar 0 + 1).toNat).take
            ((pyFind line quoteChar (pyFind line quoteChar 0 + 1).toNat).toNat -
              (pyFind line quoteChar 0 + 1).toNat))
        else none) = none
        have hts : (pyFind line quoteChar 0 + 1).toNat = 0 := by
          rw [hfind1]
          decide
        rw [hts, hfind1]
        rw [if_neg]
        intro ⟨_, h2⟩
        exact h2 rfl
      have hcount : line.count quoteChar = 0 := List.count_eq_zero.mpr hq
      rw [hL, specExtract, if_neg]
      simp only [Bool.and_eq_true, decide_eq_true_eq, not_and]
      intro _
      omega
  · have hL : (parseLogLine line).1 = none := by
      show (if containsStr line borrowedMark then _ else none) = _
      rw [if_neg (by simp [hmk])]
    rw [hL, specExtract, if_neg]
    simp [hmk]


section NumLemmas

theorem mem_of_head? {α : Type} {l : List α} {a : α} (h : l.head? = some a) :
    a ∈ l := by
  cases l with
  | nil => simp at h
  | cons x t =>
    simp only [List.head?_cons, Option.some.injEq] at h
    simp [h]

theorem mem_of_getLast?_eq {α : Type} {l : List α} {a : α}
    (h : l.getLast? = some a) : a ∈ l := by
  rw [← List.head?_reverse] at h
  exact List.mem_reverse.mp (mem_of_head? h)

theorem isDigit_bounds {c : Char} (h : c.isDigit = true) :
    48 ≤ c.toNat ∧ c.toNat ≤ 57 := by
  simp [Char.isDigit] at h
  exact ⟨h.1, h.2⟩

theorem digit_facts {c : Char} (h : c.isDigit = true) :
    pyIsSpace c = false ∧ c ≠ Char.ofNat 44 ∧ c ≠ Char.ofNat 45 ∧
    c ≠ Char.ofNat 43 ∧ c ≠ Char.ofNat 10 ∧ c ≠ Char.ofNat 13 := by
  have hb := isDigit_bounds h
  refine ⟨?_, ?_, ?_, ?_, ?_, ?_⟩
  · simp only [pyIsSpace, Bool.or_eq_false_iff, beq_eq_false_iff_ne]
    refine ⟨⟨⟨⟨⟨?_, ?_⟩, ?_⟩, ?_⟩, ?_⟩, ?_⟩ <;>
      · intro e
        rw [e] at hb
        revert hb
        decide
  all_goals
    intro e
    rw [e] at hb
    revert hb
    decide

theorem digitsVal_append (xs : Str) (c : Char) :
    digitsVal (xs ++ [c]) = 10 * digitsVal xs + (c.toNat - 48) := by
  simp [digitsVal, List.foldl_append]

theorem ofNat_digit_isDigit {d : Nat} (h : d < 10) :
    (Char.ofNat (48 + d)).isDigit = true := by
  interval_cases d <;> decide

theorem ofNat_digit_toNat {d : Nat} (h : d < 10) :
    (Char.ofNat (48 + d)).toNat = 48 + d := by
  interval_cases d <;> decide

theorem natStrAux_spec (n : Nat) : ∀ fuel : Nat, n < fuel →
    natStrAux fuel n ≠ [] ∧ (natStrAux fuel n).all Char.isDigit = true ∧
    digitsVal (natStrAux fuel n) = n := by
  induction n using Nat.strong_induction_on with
  | _ n ih =>
    intro fuel hf
    match fuel, hf with
    | fuel + 1, hf =>
      by_cases h10 : n < 10
      · simp only [natStrAux, h10, if_true]
        refine ⟨by simp, by simp [ofNat_digit_isDigit h10], ?_⟩
        simp [digitsVal, ofNat_digit_toNat h10]
      · have hdiv : n / 10 < n := Nat.div_lt_self (by omega) (by omega)
        have hfuel : n / 10 < fuel := by omega
        obtain ⟨hne, hall, hval⟩ := ih (n / 10) hdiv fuel hfuel
        have hmod : n % 10 < 10 := Nat.mod_lt n (by omega)
        simp only [natStrAux, h10, if_false]
        refine ⟨by simp, ?_, ?_⟩
        · rw [List.all_append, hall]
          simp [ofNat_digit_isDigit hmod]
        · rw [digitsVal_append, hval, ofNat_digit_toNat hmod]
          omega

theorem natStr_spec (n : Nat) :
    natStr n ≠ [] ∧ (natStr n).all Char.isDigit = true ∧
    digitsVal (natStr n) = n :=
  natStrAux_spec n (n + 1) (by omega)

theorem parseDigits_of_digits {l : Str} (hne : l ≠ [])
    (hall : l.all Char.isDigit = true) : parseDigits l = some (digitsVal l) := by
  rw [parseDigits, if_neg (by simpa using hne), if_pos hall]

theorem dropWhile_eq_self_of_head {p : Char → Bool} {l : Str}
    (h : ∀ c, l.head? = some c → p c = false) : l.dropWhile p = l := by
  cases l with
  | nil => rfl
  | cons a t =>
    have := h a rfl
    simp [List.dropWhile, this]

theorem pyStrip_eq_self {l : Str}
    (h1 : ∀ c, l.head? = some c → pyIsSpace c = false)
    (h2 : ∀ c, l.getLast? = some c → pyIsSpace c = false) : pyStrip l = l := by
  rw [pyStrip, dropWhile_eq_self_of_head h1, dropWhile_eq_self_of_head
    (fun c hc => h2 c (by rwa [List.head?_reverse] at hc)), List.reverse_reverse]

theorem pyInt_intStr (n : Int) : pyInt (intStr n) = some n := by
  cases n with
  | ofNat m =>
    obtain ⟨hne, hall, hval⟩ := natStr_spec m
    have hdig : ∀ c ∈ natStr m, c.isDigit = true := List.all_eq_true.mp hall
    have hstrip : pyStrip (natStr m) = natStr m :=
      pyStrip_eq_self
        (fun c hc => (digit_facts (hdig c (mem_of_head? hc))).1)
        (fun c hc => (digit_facts (hdig c (mem_of_getLast?_eq hc))).1)
    show pyInt (natStr m) = some (Int.ofNat m)
    rcases hns : natStr m with _ | ⟨c, r⟩
    · exact absurd hns hne
    rw [hns] at hstrip hdig hall hval
    have hc : c.isDigit = true := hdig c (by simp)
    have hfacts := digit_facts hc
    simp only [pyInt, hstrip]
    rw [if_neg hfacts.2.2.1, if_neg hfacts.2.2.2.1]
    rw [parseDigits_of_digits (by simp) hall, hval]
    rfl
  | negSucc m =>
    obtain ⟨hne, hall, hval⟩ := natStr_spec (m + 1)
    have hdig : ∀ c ∈ natStr (m + 1), c.isDigit = true := List.all_eq_true.mp hall
    show pyInt (Char.ofNat 45 :: natStr (m + 1)) = some (Int.negSucc m)
    have hstrip : pyStrip (Char.ofNat 45 :: natStr (m + 1)) =
        Char.ofNat 45 :: natStr (m + 1) := by
      refine pyStrip_eq_self (fun c hc => ?_) (fun c hc => ?_)
      · simp only [List.head?_cons, Option.some.injEq] at hc
        rw [← hc]
        decide
      · rw [show Char.ofNat 45 :: natStr (m + 1) = [Char.ofNat 45] ++ natStr (m + 1) from rfl,
          List.getLast?_append_of_ne_nil [Char.ofNat 45] hne] at hc
        exact (digit_facts (hdig c (mem_of_getLast?_eq hc))).1
    simp only [pyInt, hstrip, if_true]
    rw [parseDigits_of_digits hne hall, hval]
    simp [Int.negSucc_eq]

end NumLemmas


section SplitLemmas

theorem splitOnChar_not_mem {c : Char} {l : Str} (h : c ∉ l) :
    splitOnChar c l = [l] := by
  induction l with
  | nil => rfl
  | cons a t ih =>
    have hac : (a == c) = false := by
      simp only [beq_eq_false_iff_ne]
      intro e
      exact h (by simp [e])
    simp only [splitOnChar, hac, Bool.false_eq_true, if_false]
    rw [ih (fun hm => h (by simp [hm]))]

theorem splitOnChar_append {c : Char} {x y : Str} (h : c ∉ x) :
    splitOnChar c (x ++ c :: y) = x :: splitOnChar c y := by
  induction x with
  | nil => simp [splitOnChar]
  | cons a t ih =>
    have hac : (a == c) = false := by
      simp only [beq_eq_false_iff_ne]
      intro e
      exact h (by simp [e])
    simp only [List.cons_append, splitOnChar, hac, Bool.false_eq_true, if_false,
      List.append_eq]
    rw [ih (fun hm => h (by simp [hm]))]

theorem normNewlines_cons2 (c d : Char) (t : Str) :
    normNewlines (c :: d :: t) =
      if c = Char.ofNat 13 then
        (if d = Char.ofNat 10 then Char.ofNat 10 :: normNewlines t
         else Char.ofNat 10 :: normNewlines (d :: t))
      else c :: normNewlines (d :: t) := rfl

theorem normNewlines_append {l rest : Str}
    (h : ∀ ch ∈ l, ch ≠ Char.ofNat 10 ∧ ch ≠ Char.ofNat 13) :
    normNewlines (l ++ Char.ofNat 10 :: rest) =
      l ++ Char.ofNat 10 :: normNewlines rest := by
  induction l with
  | nil =>
    cases rest with
    | nil => rfl
    | cons d t2 =>
      rw [List.nil_append, List.nil_append, normNewlines_cons2,
        if_neg (by decide)]
  | cons a t ih =>
    obtain ⟨ha10, ha13⟩ := h a (by simp)
    have ih' := ih (fun ch hm => h ch (by simp [hm]))
    cases t with
    | nil =>
      simp only [List.nil_append] at ih'
      rw [List.cons_append, List.nil_append, normNewlines_cons2, if_neg ha13, ih']
      rfl
    | cons b t2 =>
      rw [List.cons_append, List.cons_append, normNewlines_cons2, if_neg ha13,
        ← List.cons_append, ih']
      rfl

theorem splitLines_append {l rest : Str}
    (h : ∀ ch ∈ l, ch ≠ Char.ofNat 10 ∧ ch ≠ Char.ofNat 13) :
    splitLines (l ++ Char.ofNat 10 :: rest) = l :: splitLines rest := by
  rw [splitLines, splitLines, normNewlines_append h,
    splitOnChar_append (fun hm => (h _ hm).1 rfl)]

end SplitLemmas

section SerializeLemmas

theorem getLast?_cons_of_ne_nil {α : Type} (a : α) {l : List α} (h : l ≠ []) :
    (a :: l).getLast? = l.getLast? := by
  rw [show a :: l = [a] ++ l from rfl, List.getLast?_append_of_ne_nil [a] h]

theorem intStr_ne_nil (n : Int) : intStr n ≠ [] := by
  cases n with
  | ofNat m => exact (natStr_spec m).1
  | negSucc m => simp [intStr]

theorem intStr_chars (n : Int) :
    ∀ ch ∈ intStr n, ch.isDigit = true ∨ ch = Char.ofNat 45 := by
  cases n with
  | ofNat m =>
    intro ch hm
    exact Or.inl (List.all_eq_true.mp (natStr_spec m).2.1 ch hm)
  | negSucc m =>
    intro ch hm
    rcases List.mem_cons.mp hm with hh | hh
    · exact Or.inr hh
    · exact Or.inl (List.all_eq_true.mp (natStr_spec (m + 1)).2.1 ch hh)

theorem intStr_getLast_digit (n : Int) :
    ∃ c, (intStr n).getLast? = some c ∧ c.isDigit = true := by
  cases n with
  | ofNat m =>
    obtain ⟨hne, hall, _⟩ := natStr_spec m
    obtain ⟨c, hc⟩ := Option.isSome_iff_exists.mp
      (by rwa [List.getLast?_isSome] : (natStr m).getLast?.isSome = true)
    exact ⟨c, hc, List.all_eq_true.mp hall c (mem_of_getLast?_eq hc)⟩
  | negSucc m =>
    obtain ⟨hne, hall, _⟩ := natStr_spec (m + 1)
    obtain ⟨c, hc⟩ := Option.isSome_iff_exists.mp
      (by rwa [List.getLast?_isSome] : (natStr (m + 1)).getLast?.isSome = true)
    refine ⟨c, ?_, List.all_eq_true.mp hall c (mem_of_getLast?_eq hc)⟩
    rw [intStr, getLast?_cons_of_ne_nil _ hne]
    exact hc

theorem intStr_no_sep (n : Int) :
    ∀ ch ∈ intStr n, ch ≠ Char.ofNat 44 ∧ ch ≠ Char.ofNat 10 ∧ ch ≠ Char.ofNat 13 := by
  intro ch hm
  rcases intStr_chars n ch hm with hd | hd
  · have := digit_facts hd
    exact ⟨this.2.1, this.2.2.2.2.1, this.2.2.2.2.2⟩
  · rw [hd]
    refine ⟨by decide, by decide, by decide⟩

theorem serializeBook_ne_nil (b : Book) : serializeBook b ≠ [] := by
  rw [serializeBook]
  simp

theorem serializeBook_no_nl {b : Book} (hb : goodBook b) :
    ∀ ch ∈ serializeBook b, ch ≠ Char.ofNat 10 ∧ ch ≠ Char.ofNat 13 := by
  obtain ⟨hid, ht, ha, _⟩ := hb
  intro ch hm
  rw [serializeBook] at hm
  rcases List.mem_append.mp hm with h1 | h1
  · exact ⟨(hid ch h1).2.1, (hid ch h1).2.2⟩
  rcases List.mem_cons.mp h1 with h2 | h2
  · rw [h2]
    exact ⟨by decide, by decide⟩
  rcases List.mem_append.mp h2 with h3 | h3
  · exact ⟨(ht ch h3).2.1, (ht ch h3).2.2⟩
  rcases List.mem_cons.mp h3 with h4 | h4
  · rw [h4]
    exact ⟨by decide, by decide⟩
  rcases List.mem_append.mp h4 with h5 | h5
  · exact ⟨(ha ch h5).2.1, (ha ch h5).2.2⟩
  rcases List.mem_cons.mp h5 with h6 | h6
  · rw [h6]
    exact ⟨by decide, by decide⟩
  exact (intStr_no_sep b.available_copies ch h6).2

theorem getLast?_append_cons {α : Type} (x : List α) (c : α) (y : List α)
    (h : y ≠ []) : (x ++ c :: y).getLast? = y.getLast? := by
  rw [List.getLast?_append_of_ne_nil x (by simp), getLast?_cons_of_ne_nil c h]

theorem serializeBook_getLast (b : Book) :
    ∃ c, (serializeBook b).getLast? = some c ∧ c.isDigit = true := by
  obtain ⟨c, hc, hd⟩ := intStr_getLast_digit b.available_copies
  refine ⟨c, ?_, hd⟩
  rw [serializeBook]
  rw [getLast?_append_cons b.book_id (Char.ofNat 44)
    (b.title ++ (Char.ofNat 44 :: (b.author ++
      (Char.ofNat 44 :: intStr b.available_copies)))) (by simp)]
  rw [getLast?_append_cons b.title (Char.ofNat 44)
    (b.author ++ (Char.ofNat 44 :: intStr b.available_copies)) (by simp)]
  rw [getLast?_append_cons b.author (Char.ofNat 44)
    (intStr b.available_copies) (intStr_ne_nil b.available_copies)]
  exact hc

theorem serializeBook_strip {b : Book} (hb : goodBook b) :
    pyStrip (serializeBook b) = serializeBook b := by
  obtain ⟨hid, ht, ha, hlead⟩ := hb
  refine pyStrip_eq_self (fun c hc => ?_) (fun c hc => ?_)
  · rcases hbid : b.book_id with _ | ⟨a, t⟩
    · rw [serializeBook, hbid, List.nil_append, List.head?_cons,
        Option.some.injEq] at hc
      rw [← hc]
      decide
    · rw [serializeBook, hbid, List.cons_append, List.head?_cons,
        Option.some.injEq] at hc
      rw [hbid] at hlead
      rw [goodLead] at hlead
      rw [← hc]
      simpa using hlead
  · obtain ⟨d, hd, hdig⟩ := serializeBook_getLast b
    rw [hd, Option.some.injEq] at hc
    rw [← hc]
    exact (digit_facts hdig).1

theorem serializeBook_split {b : Book} (hb : goodBook b) :
    splitOnChar (Char.ofNat 44) (serializeBook b) =
      [b.book_id, b.title, b.author, intStr b.available_copies] := by
  obtain ⟨hid, ht, ha, _⟩ := hb
  rw [serializeBook]
  rw [splitOnChar_append (fun hm => (hid _ hm).1 rfl)]
  rw [splitOnChar_append (fun hm => (ht _ hm).1 rfl)]
  rw [splitOnChar_append (fun hm => (ha _ hm).1 rfl)]
  rw [splitOnChar_not_mem (fun hm => (intStr_no_sep b.available_copies _ hm).1 rfl)]

theorem parseBookLine_serialize {b : Book} (hb : goodBook b) :
    parseBookLine (serializeBook b) = some b := by
  rw [parseBookLine, serializeBook_strip hb, serializeBook_split hb]
  simp [pyInt_intStr]

end SerializeLemmas

/-- C7 counterexample: a single book whose title contains a comma is written
as a five-field line; reloading skips it as malformed, so the catalog is not
reproduced. -/
theorem c7_counterexample :
    load_books (save_books [⟨"1".data, "A,B".data, "C".data, 2⟩]) = [] ∧
    ([⟨"1".data, "A,B".data, "C".data, 2⟩] : List Book) ≠ [] := by
  constructor
  · decide
  · decide

/-- C7 (amended): saving a list of books and reloading reproduces exactly
the same records — ids, titles (case preserved), authors and counts —
provided no field contains a comma, newline or carriage return and no id
starts with whitespace (the flat comma-separated format cannot represent
such fields, as the specification itself notes). -/
theorem c7_save_load_books (books : List Book) (h : ∀ b ∈ books, goodBook b) :
    load_books (save_books books) = books := by
  induction books with
  | nil => rfl
  | cons b bs ih =>
    have hb := h b (by simp)
    have hbs : ∀ x ∈ bs, goodBook x := fun x hx => h x (by simp [hx])
    show load_books (serializeBook b ++ Char.ofNat 10 :: save_books bs) = b :: bs
    rw [load_books, splitLines_append (serializeBook_no_nl hb)]
    have hne : ¬ (pyStrip (serializeBook b) = ([] : Str)) := by
      rw [serializeBook_strip hb]
      exact serializeBook_ne_nil b
    rw [List.filterMap_cons]
    simp only [hne, if_false, parseBookLine_serialize hb]
    exact congrArg (fun l => b :: l) (ih hbs)

/-- C7 witness: a concrete comma-free book survives the round trip. -/
theorem c7_witness :
    load_books (save_books [⟨"1".data, "Dune".data, "Henry".data, 3⟩]) =
      [⟨"1".data, "Dune".data, "Henry".data, 3⟩] :=
  c7_save_load_books [⟨"1".data, "Dune".data, "Henry".data, 3⟩] (by decide)

end LibSys
